import Mathlib

/-!
Shallow embedding of the Toledo Atomchess Reloaded C port
(src/toledo_atomchess.h and src/toledo_atomchess.c).

Modelling choices, stated once here:

* The board is a list of 128 natural numbers (the C array
  `unsigned char board[BOARD_SIZE]`); cell reads are `List.getD _ _ 0`
  and cell writes are `List.set`.  All indices the game logic produces
  are in range, so the total Lean functions agree with the C code there;
  an out-of-range C access would be undefined behaviour.
* C `int` values (scores, square indices that can go negative while a
  ray walks off the board, the en passant square) are `Int`;
  `unsigned char` values (board cells, piece codes, colors) are `Nat`.
* The C bounds test at line 334,
  `(di & 0x88) != 0 || di < 0 || di >= BOARD_SIZE`, is modelled by
  `offBoard` below as `di < 0 || 128 <= di || di.toNat &&& 0x88 != 0`.
  The two are equivalent: for `0 <= di < 128` the tests coincide, and
  every `di` outside that range is rejected by both (any negative
  two-complement `int` value either has bit 3 or bit 7 set or is caught by
  the `di < 0` test, and every `di >= 128` is caught by the explicit
  range test on both sides).
* `(diff & 0x0F)` on a C `int` equals the nonnegative remainder
  `diff.emod 16`, and the condition at line 507,
  `(diff & 0x0F) > 1 || (diff & 0x0F) < -1`, reduces to
  `1 < diff.emod 16` because a masked value is never negative.
* The recursive search `play` (lines 276-449) carries an explicit fuel
  for its self-recursion: `play (d+1)` lets the body recurse into
  `play d`, and `play 0` cannot recurse.  The wrappers call it with
  fuel 8; recursion is guarded by `stack_depth < depth_limit`, the
  depth limits are 4 and 6 and each ply adds 2, so at most 4 nested
  calls ever occur and the fuel is never exhausted.  The unbounded C
  ray loop `for (;;)` at line 326 gets fuel 128: each iteration moves
  `di` by one fixed nonzero displacement and the loop stops at the
  0x88 bounds test, so no ray on the 128-cell board runs 128 steps.
* The C fields `best_from` and `best_to` are written by `play` only at
  `stack_depth == 0` and read only after `play` returns; they are
  returned in `PlayResult` instead of being threaded through
  `ChessState`, starting from the `-1` sentinels that `computer_move`
  stores before calling `play`.
-/

set_option maxHeartbeats 1000000
set_option maxRecDepth 8000

namespace Atomchess

/-- Constants from toledo_atomchess.h lines 34-57 and 83-90. -/
def PIECE_MASK : Nat := 0x07
def COLOR_MASK : Nat := 0x08
def PIECE_FULL_MASK : Nat := 0x0F
def EMPTY : Nat := 0x00
def FRONTIER : Nat := 0x07
def PAWN : Nat := 1
def KING : Nat := 6
def BLACK : Nat := 0x00
def WHITE : Nat := 0x08
def MAX_DEPTH_PLY1 : Nat := 4
def MAX_DEPTH_PLY0 : Nat := 6
def MIN_SCORE : Int := -32768
def KING_CAPTURE_SCORE : Int := 78
def MAX_CHECKMATE_SCORE : Int := KING_CAPTURE_SCORE * 2
def ILLEGAL_MOVE_SCORE : Int := -127

/-- Piece scores for evaluation, toledo_atomchess.c lines 16-24. -/
def piece_scores : List Int := [0, 1, 5, 3, 9, 3, 0]

/-- Initial first-rank piece codes, lines 27-30. -/
def initial_position : List Nat := [0x12, 0x15, 0x13, 0x14, 0x16, 0x13, 0x15, 0x12]

/-- Movement displacement table, lines 41-52: knight, king/rook cardinals,
bishop diagonals, black pawn, white pawn. -/
def displacement : List Int :=
  [-33, -31, -18, -14, 14, 18, 31, 33,
   -16, 16, -1, 1,
   15, 17, -15, -17,
   -17, -15, -16, -32,
   15, 17, 16, 32]

/-- Movement offset indices, lines 55-63. -/
def offsets : List Nat := [0, 16, 8, 12, 8, 0, 8]

/-- The shared mutable game state of the C program (struct ChessState,
header lines 119-135), restricted to the fields the search and move
execution read or write.  temp_score and rand_seed are never read by the
core, and best_from/best_to are returned in PlayResult (see the header
comment of this file). -/
structure ChessState where
  board : List Nat
  depth_limit : Nat
  enp : Int
  legal_move_check : Bool
  stack_depth : Nat
deriving Repr, DecidableEq

/-- Result of one call to play: the state object as the call leaves it,
the score stored through the best_score out-parameter, the C return
value (1 exactly on a king capture), and the best_from/best_to fields. -/
structure PlayResult where
  state : ChessState
  score : Int
  king_captured : Bool
  best_from : Int
  best_to : Int
deriving Repr, DecidableEq

/-- Control flow of the loop bodies inside play: either an early
return from the whole function, or fall through to the next iteration
carrying the current state and the accumulators bp, best_from, best_to. -/
inductive StepOut where
  | ret (r : PlayResult)
  | cont (s : ChessState) (bp bf bt : Int)
deriving Repr, DecidableEq

/-- The bounds test of line 334 (see the header comment for why this
form is equivalent to the C expression). -/
def offBoard (di : Int) : Bool :=
  di < 0 || 128 ≤ di || (di.toNat &&& 0x88 ≠ 0)

/-- Movement parameters computed in lines 301-319 for a piece whose
translated type (piece xor color, masked) is pt in 1..6: the movement
count, the offset into the displacement table, and whether the piece
slides.  A pawn (pt = 1) gets count 4, offset 16 or 20 by color, and
adjusted index 4; other pieces get adjusted index pt + 4, count
(pt+4) &&& 0x0C and offset offsets[pt]; sliding means the adjusted
index is 6, 7 or 8 (rook, bishop, queen). -/
def moveParams (pt c : Nat) : Nat × Nat × Bool :=
  if pt = 1 then
    (4, if c = BLACK then 16 else 20, false)
  else
    let pidx := pt + 4
    (pidx &&& 0x0C, offsets.getD pt 0, 6 ≤ pidx && pidx ≤ 8)

/-- One step of the ray loop head, lines 327-369: advance di by the
displacement (with the dead wrap check of line 329), stop when off
board, otherwise read the target cell and decide whether this square
yields a candidate move (the goto valid_move cases) or the ray breaks.
Returns none on the bounds break, otherwise the new di, the target
cell value and the generate/break decision. -/
def rayProbe (b : List Nat) (enp : Int) (c cnt off md : Nat) (di : Int) :
    Option (Int × Nat × Bool) :=
  let dispIdx := off + md
  let dispIdx := if 24 ≤ dispIdx then 16 else dispIdx
  let di := di + displacement.getD dispIdx 0
  if offBoard di then none
  else
    let target := b.getD di.toNat 0
    let tt := target &&& PIECE_FULL_MASK
    let gen : Bool :=
      if tt = EMPTY then
        -- lines 342-356: pawn moves (off >= 16) onto an empty square
        -- are only generated under cnt < 3 (never true, cnt is 4) or
        -- when di equals the en passant square; other pieces always
        -- generate onto an empty square.
        if 16 ≤ off ∧ cnt < 3 then true
        else if 16 ≤ off then decide (di = enp)
        else true
      else
        -- lines 357-369: occupied square, generate exactly on an
        -- enemy piece, break on an own piece or frontier.
        decide (target &&& COLOR_MASK ≠ c ∧ tt &&& PIECE_MASK < 7)
    some (di, target, gen)

/-- Lines 398-418 of the valid_move body: save the origin and target
cells, make the move on the board (di first, si second, as the C code
writes them), recurse into the opposite color one level deeper when
below the depth limit (the C code increments stack_depth by 2 around
the call and subtracts the returned score from the material value of
the capture), then unmake the move by writing the saved cells back (si
first, di second).  Returns the state after the unmake together with
the score of the move. -/
def playStep (rec : Option (ChessState → Int → Int → Nat → PlayResult))
    (s : ChessState) (c si piece diN captured : Nat) : ChessState × Int :=
  let saved_t := s.board.getD diN 0
  let saved_o := s.board.getD si 0
  let b1 := (s.board.set diN (piece &&& PIECE_FULL_MASK)).set si EMPTY
  let ms0 : Int := piece_scores.getD captured 0
  let step : ChessState × Int :=
    if s.stack_depth < s.depth_limit then
      match rec with
      | some f =>
        let r := f { s with board := b1, stack_depth := s.stack_depth + 2 }
                   (-1) (-1) (c ^^^ COLOR_MASK)
        ({ r.state with stack_depth := r.state.stack_depth - 2 }, ms0 - r.score)
      | none => ({ s with board := b1 }, ms0)
    else ({ s with board := b1 }, ms0)
  ({ step.1 with board := (step.1.board.set si saved_o).set diN saved_t }, step.2)

/-- The innermost for(;;) ray loop of play, lines 326-436, including the
valid_move body (lines 373-435).  rec is the function used for the
recursive call at line 411 (none when the modelling fuel is exhausted,
which the wrappers never allow).  Arguments before the fuel are fixed
for the whole ray; s, di and the accumulators vary per iteration. -/
def playRay (rec : Option (ChessState → Int → Int → Nat → PlayResult))
    (oh th : Int) (c si piece cnt off : Nat) (slid : Bool) (md : Nat) :
    Nat → ChessState → Int → Int → Int → Int → StepOut
  | 0, s, _, bp, bf, bt => .cont s bp bf bt
  | fuel + 1, s, di, bp, bf, bt =>
    match rayProbe s.board s.enp c cnt off md di with
    | none => .cont s bp bf bt
    | some (di, target, gen) =>
      if gen then
        -- valid_move, line 373
        let tt := target &&& PIECE_FULL_MASK
        let captured := target &&& PIECE_MASK
        if captured = KING then
          -- lines 377-384: king capture, immediate return 1
          .ret { state := s,
                 score := if MAX_DEPTH_PLY1 < s.stack_depth then MAX_CHECKMATE_SCORE
                          else KING_CAPTURE_SCORE,
                 king_captured := true, best_from := bf, best_to := bt }
        else if s.legal_move_check = true ∧ s.stack_depth = 0 then
          -- lines 388-396: validation mode at the root
          if (si : Int) = oh ∧ di = th then
            .ret { state := s, score := 0, king_captured := false,
                   best_from := bf, best_to := bt }
          else
            -- line 395: continue, which reenters the for(;;) loop
            -- directly and skips the slide check of line 433
            playRay rec oh th c si piece cnt off slid md fuel s di bp bf bt
        else
          -- lines 398-418: make the move, recurse, unmake the move
          let sm := playStep rec s c si piece di.toNat captured
          -- lines 421-429: best-score bookkeeping
          let acc : Int × Int × Int :=
            if sm.2 > bp then
              (sm.2, if sm.1.stack_depth = 0 then (si : Int) else bf,
                     if sm.1.stack_depth = 0 then di else bt)
            else (bp, bf, bt)
          -- lines 431-435: non-slider or blocked ends the ray
          if slid = false ∨ tt ≠ EMPTY then .cont sm.1 acc.1 acc.2.1 acc.2.2
          else playRay rec oh th c si piece cnt off slid md fuel sm.1 di acc.1 acc.2.1 acc.2.2
      else .cont s bp bf bt

/-- The direction loop of play, lines 322-437: md counts up from 0 while
n counts the remaining directions down from the movement count. -/
def playDirs (rec : Option (ChessState → Int → Int → Nat → PlayResult))
    (oh th : Int) (c si piece cnt off : Nat) (slid : Bool) :
    Nat → Nat → ChessState → Int → Int → Int → StepOut
  | 0, _, s, bp, bf, bt => .cont s bp bf bt
  | n + 1, md, s, bp, bf, bt =>
    match playRay rec oh th c si piece cnt off slid md 128 s (si : Int) bp bf bt with
    | .ret r => .ret r
    | .cont s' bp' bf' bt' =>
      playDirs rec oh th c si piece cnt off slid n (md + 1) s' bp' bf' bt'

/-- The square loop of play, lines 281-438: si counts up from 0 while n
counts the remaining squares down from 120.  Lines 283-295 skip 0x88
squares and cells that do not hold a piece of the side to move. -/
def playSquares (rec : Option (ChessState → Int → Int → Nat → PlayResult))
    (oh th : Int) (c : Nat) :
    Nat → Nat → ChessState → Int → Int → Int → StepOut
  | 0, _, s, bp, bf, bt => .cont s bp bf bt
  | n + 1, si, s, bp, bf, bt =>
    if si &&& 0x88 ≠ 0 then playSquares rec oh th c n (si + 1) s bp bf bt
    else
      let piece := s.board.getD si 0
      let pt := (piece ^^^ c) &&& PIECE_FULL_MASK
      if 1 ≤ pt ∧ pt ≤ 6 then
        match moveParams pt c with
        | (cnt, off, slid) =>
          match playDirs rec oh th c si piece cnt off slid cnt 0 s bp bf bt with
          | .ret r => .ret r
          | .cont s' bp' bf' bt' => playSquares rec oh th c n (si + 1) s' bp' bf' bt'
      else playSquares rec oh th c n (si + 1) s bp bf bt

/-- The body of play, lines 276-449, for a given recursion function. -/
def playBody (rec : Option (ChessState → Int → Int → Nat → PlayResult))
    (s : ChessState) (oh th : Int) (c : Nat) : PlayResult :=
  let saved_enp := s.enp
  match playSquares rec oh th c 120 0 s MIN_SCORE (-1) (-1) with
  | .ret r => r
  | .cont s' bp bf bt =>
    { state := { s' with enp := saved_enp },
      score := if s'.legal_move_check = true ∧ s'.stack_depth = 0 then ILLEGAL_MOVE_SCORE
               else bp,
      king_captured := false, best_from := bf, best_to := bt }

/-- The recursive search function play, lines 276-449, with explicit
recursion fuel (see the header comment of this file). -/
def play : Nat → ChessState → Int → Int → Nat → PlayResult
  | 0, s, oh, th, c => playBody none s oh th c
  | d + 1, s, oh, th, c => playBody (some (play d)) s oh th c

/-- play_validate, lines 452-462: set validation mode, depth limit
MAX_DEPTH_PLY1 and depth 0, run play against the candidate pair and
return the resulting score. -/
def play_validate (s : ChessState) (origin target : Int) (c : Nat) : Int :=
  (play 8 { s with legal_move_check := true, depth_limit := MAX_DEPTH_PLY1,
                   stack_depth := 0 } origin target c).score

/-- make_move, lines 487-544: move the piece (clearing the moved bit),
then pawn promotion, en passant capture removal and en passant target
bookkeeping, then castling rook relocation. -/
def make_move (s : ChessState) (fromSq toSq : Nat) : ChessState :=
  let piece := s.board.getD fromSq 0
  let captured := s.board.getD toSq 0
  let b := (s.board.set toSq (piece &&& PIECE_FULL_MASK)).set fromSq EMPTY
  let piece_type := piece &&& PIECE_MASK
  if piece_type = PAWN then
    -- lines 499-503: promotion to queen on row 0 or row 7
    let b := if toSq &&& 0xF0 = 0x00 ∨ toSq &&& 0xF0 = 0x70 then
               b.set toSq ((piece &&& COLOR_MASK) ||| 4)
             else b
    let diff : Int := (toSq : Int) - (fromSq : Int)
    -- lines 505-519: en passant capture removal on a diagonal pawn
    -- move onto the empty en passant square
    let b := if 1 < diff.emod 16 then
               if captured = EMPTY ∧ (toSq : Int) = s.enp then
                 if 0 < diff then b.set (toSq - 16) EMPTY
                 else b.set (toSq + 16) EMPTY
               else b
             else b
    -- lines 521-526: en passant target bookkeeping
    let enp : Int := if diff = 32 ∨ diff = -32 then (toSq : Int) else 0
    { s with board := b, enp := enp }
  else
    -- lines 531-543: castling rook relocation for a two-square king move
    let b := if piece_type = KING then
               let diff : Int := (toSq : Int) - (fromSq : Int)
               if diff = 2 then
                 (b.set (toSq - 1) (b.getD (toSq + 1) 0)).set (toSq + 1) EMPTY
               else if diff = -2 then
                 (b.set (toSq + 1) (b.getD (toSq - 2) 0)).set (toSq - 2) EMPTY
               else b
             else b
    { s with board := b, enp := 0 }

/-- create_board, lines 108-120: all cells empty, frontier markers on
the 0x88 squares. -/
def create_board : List Nat :=
  (List.range 128).map (fun i => if i &&& 0x88 ≠ 0 then FRONTIER else EMPTY)

/-- setup_board, lines 123-143: back ranks from initial_position (black
on row 0, white on row 7 with the color bit), black pawns on row 1,
white pawns on row 6. -/
def setup_board (b : List Nat) : List Nat :=
  (List.range 8).foldl
    (fun b i =>
      let piece := initial_position.getD i 0
      ((((b.set i piece).set (i + 0x70) (piece ||| 0x08)).set ((i + 1) + 0x0F) 0x11).set
        ((i + 1) + 0x5F) 0x19))
    b

/-- The standard initial board, init_chess lines 102-105. -/
def initial_board : List Nat := setup_board create_board

/-- The state right after init_chess: initial board, no en passant
target, all search context fields cleared. -/
def initial_state : ChessState :=
  { board := initial_board, depth_limit := 0, enp := 0,
    legal_move_check := false, stack_depth := 0 }

/-! ## The move enumerator

The specification speaks about "the moves the enumerator generates for a
color from a position".  In the C code enumeration is the part of play
that reaches the valid_move label (lines 281-373) under the normal
continuation rule of lines 431-435.  genMoves below is that enumeration
as a pure list producer over a fixed board and en passant square: it has
exactly the loop structure of play, but neither scores, aborts nor
mutates.  A generated move is recorded as its origin square, target
square and the board value at the target. -/

/-- One generated candidate move: origin square, target square and the
value of the target cell at generation time. -/
structure GenMove where
  si : Nat
  di : Int
  target : Nat
deriving Repr, DecidableEq

/-- Ray-level enumeration, mirroring playRay with the normal-mode
continuation rule: a generated move onto an empty square continues a
sliding ray, everything else ends the ray. -/
def genRay (b : List Nat) (enp : Int) (c si cnt off : Nat) (slid : Bool) (md : Nat) :
    Nat → Int → List GenMove
  | 0, _ => []
  | fuel + 1, di =>
    match rayProbe b enp c cnt off md di with
    | none => []
    | some (di, target, gen) =>
      if gen then
        if slid = false ∨ target &&& PIECE_FULL_MASK ≠ EMPTY then [⟨si, di, target⟩]
        else ⟨si, di, target⟩ :: genRay b enp c si cnt off slid md fuel di
      else []

/-- Direction-level enumeration, mirroring playDirs. -/
def genDirs (b : List Nat) (enp : Int) (c si cnt off : Nat) (slid : Bool) :
    Nat → Nat → List GenMove
  | 0, _ => []
  | n + 1, md =>
    genRay b enp c si cnt off slid md 128 (si : Int) ++
      genDirs b enp c si cnt off slid n (md + 1)

/-- Square-level enumeration, mirroring playSquares. -/
def genSquares (b : List Nat) (enp : Int) (c : Nat) : Nat → Nat → List GenMove
  | 0, _ => []
  | n + 1, si =>
    if si &&& 0x88 ≠ 0 then genSquares b enp c n (si + 1)
    else
      let piece := b.getD si 0
      let pt := (piece ^^^ c) &&& PIECE_FULL_MASK
      if 1 ≤ pt ∧ pt ≤ 6 then
        match moveParams pt c with
        | (cnt, off, slid) =>
          genDirs b enp c si cnt off slid cnt 0 ++ genSquares b enp c n (si + 1)
      else genSquares b enp c n (si + 1)

/-- The pseudo-legal moves the enumerator generates for color c on board
b with en passant square enp, in the scan order of play. -/
def genMoves (b : List Nat) (enp : Int) (c : Nat) : List GenMove :=
  genSquares b enp c 120 0

/-! ## The validation-mode scan

In validation mode at depth zero, after every generated move that does
not match the candidate pair the code executes continue (line 395),
which reenters the for(;;) loop directly and skips the ray-termination
check of lines 431-435: the ray keeps stepping even for non-sliding
pieces and straight through enemy-occupied squares.  vScan lists the
squares such a scan visits as candidate moves, in order; vOutcome walks
that list exactly as play does, returning the king-capture score at the
first scanned king capture, 0 at the first candidate match, and the
illegal-move sentinel if the scan completes with neither. -/

/-- Ray-level validation scan: every generated move continues the ray. -/
def vRay (b : List Nat) (enp : Int) (c si cnt off md : Nat) :
    Nat → Int → List GenMove
  | 0, _ => []
  | fuel + 1, di =>
    match rayProbe b enp c cnt off md di with
    | none => []
    | some (di, target, gen) =>
      if gen then ⟨si, di, target⟩ :: vRay b enp c si cnt off md fuel di
      else []

/-- Direction-level validation scan. -/
def vDirs (b : List Nat) (enp : Int) (c si cnt off : Nat) : Nat → Nat → List GenMove
  | 0, _ => []
  | n + 1, md =>
    vRay b enp c si cnt off md 128 (si : Int) ++ vDirs b enp c si cnt off n (md + 1)

/-- Square-level validation scan. -/
def vSquares (b : List Nat) (enp : Int) (c : Nat) : Nat → Nat → List GenMove
  | 0, _ => []
  | n + 1, si =>
    if si &&& 0x88 ≠ 0 then vSquares b enp c n (si + 1)
    else
      let piece := b.getD si 0
      let pt := (piece ^^^ c) &&& PIECE_FULL_MASK
      if 1 ≤ pt ∧ pt ≤ 6 then
        match moveParams pt c with
        | (cnt, off, _) => vDirs b enp c si cnt off cnt 0 ++ vSquares b enp c n (si + 1)
      else vSquares b enp c n (si + 1)

/-- The full validation-mode scan sequence for color c. -/
def vScan (b : List Nat) (enp : Int) (c : Nat) : List GenMove :=
  vSquares b enp c 120 0

/-- The outcome of the depth-zero validation walk over a scan sequence:
king capture gives KING_CAPTURE_SCORE (the depth is zero, so the score
is not doubled), a match of the candidate pair gives 0, exhaustion gives
ILLEGAL_MOVE_SCORE. -/
def vOutcome (oh th : Int) : List GenMove → Int
  | [] => ILLEGAL_MOVE_SCORE
  | m :: rest =>
    if m.target &&& PIECE_MASK = KING then KING_CAPTURE_SCORE
    else if (m.si : Int) = oh ∧ m.di = th then 0
    else vOutcome oh th rest

/-! ## Specification-side scoring

moveScoreR states, in the words of the specification, what one
generated move scores at a search node: the material value of the
captured piece, minus the score of the recursive search on the position
after the move when the node is below the depth limit.  processMovesR
walks a generated-move list exactly as a search node does: abort with
the king-capture score at a king capture, otherwise fold the negamax
maximum, remembering the first move per strict improvement (root only). -/

/-- Score of one generated move at a node (spec 4.2, recursive scoring):
material value of the capture, minus the recursive score of the child
position when below the depth limit. -/
def moveScoreR (rec : Option (ChessState → Int → Int → Nat → PlayResult))
    (s : ChessState) (c : Nat) (m : GenMove) : Int :=
  let cap := piece_scores.getD (m.target &&& PIECE_MASK) 0
  if s.stack_depth < s.depth_limit then
    match rec with
    | some f =>
      cap - (f { s with
                 board := (s.board.set m.di.toNat ((s.board.getD m.si 0) &&& PIECE_FULL_MASK)).set
                   m.si EMPTY,
                 stack_depth := s.stack_depth + 2 } (-1) (-1) (c ^^^ COLOR_MASK)).score
    | none => cap
  else cap

/-- The claim-facing move score at fuel d + 1: the recursive call is
play at fuel d. -/
def moveScore (d : Nat) (s : ChessState) (c : Nat) (m : GenMove) : Int :=
  moveScoreR (some (play d)) s c m

/-- Process a generated-move list the way a search node does: return
the (possibly doubled) king-capture score at the first king capture,
otherwise accumulate the maximum move score, keeping the first
maximizer in best_from/best_to at the root. -/
def processMovesR (rec : Option (ChessState → Int → Int → Nat → PlayResult))
    (s : ChessState) (c : Nat) : List GenMove → Int → Int → Int → StepOut
  | [], bp, bf, bt => .cont s bp bf bt
  | m :: rest, bp, bf, bt =>
    if m.target &&& PIECE_MASK = KING then
      .ret { state := s,
             score := if MAX_DEPTH_PLY1 < s.stack_depth then MAX_CHECKMATE_SCORE
                      else KING_CAPTURE_SCORE,
             king_captured := true, best_from := bf, best_to := bt }
    else
      let ms := moveScoreR rec s c m
      let acc : Int × Int × Int :=
        if ms > bp then
          (ms, if s.stack_depth = 0 then (m.si : Int) else bf,
               if s.stack_depth = 0 then m.di else bt)
        else (bp, bf, bt)
      processMovesR rec s c rest acc.1 acc.2.1 acc.2.2

/-- The negamax fold of spec 4.2 over a generated-move list: maximum of
the move scores starting from MIN_SCORE, best move recorded at the root
as the first strict maximizer (ties keep the first move found). -/
def negamaxFold (d : Nat) (s : ChessState) (c : Nat) (l : List GenMove) :
    Int × Int × Int :=
  l.foldl
    (fun acc m =>
      let sc := moveScore d s c m
      if sc > acc.1 then
        (sc, if s.stack_depth = 0 then (m.si : Int) else acc.2.1,
             if s.stack_depth = 0 then m.di else acc.2.2)
      else acc)
    (MIN_SCORE, -1, -1)

/-- Sliding-move semantics in the words of spec 4.2 (Enumeration): from
the origin, repeat the displacement; an empty square yields a candidate
and the ray continues; the first enemy piece yields a candidate and the
ray stops; a friendly piece (or the frontier sentinel, which is not a
piece) yields nothing and the ray stops; off board stops. -/
def specSlide (b : List Nat) (c si : Nat) (d : Int) : Nat → Int → List GenMove
  | 0, _ => []
  | fuel + 1, di =>
    let di := di + d
    if offBoard di then []
    else
      let target := b.getD di.toNat 0
      if target &&& PIECE_FULL_MASK = EMPTY then
        ⟨si, di, target⟩ :: specSlide b c si d fuel di
      else if target &&& COLOR_MASK ≠ c ∧ target &&& PIECE_MASK < 7 then
        [⟨si, di, target⟩]
      else []

/-! ## Basic board lemmas -/

/-- Writing back the two cell values that were saved before a make-move
pair of writes restores the board exactly, in the write order of lines
402-403 and 417-418 (di then si to make, si then di to unmake). -/
theorem set_restore (b : List Nat) (si di x : Nat) :
    ((b.set di x).set si ((b[si]?).getD 0)).set di ((b[di]?).getD 0) = b := by
  apply List.ext_getElem?
  intro n
  by_cases hdn : di = n
  · subst hdn
    by_cases hl : di < b.length
    · simp [List.getElem?_set, hl, List.getElem?_eq_getElem hl]
    · simp [List.getElem?_set, hl, List.getElem?_eq_none (Nat.le_of_not_lt hl)]
  · by_cases hsn : si = n
    · subst hsn
      by_cases hl : si < b.length
      · simp [List.getElem?_set, hdn, hl, List.getElem?_eq_getElem hl]
      · simp [List.getElem?_set, hdn, hl, List.getElem?_eq_none (Nat.le_of_not_lt hl)]
    · simp [List.getElem?_set, hdn, hsn]

/-- Writing back the two cell values that were saved before a make-move
pair of writes restores the board exactly, in the write order of lines
402-403 and 417-418 (di then si to make, si then di to unmake). -/
theorem set_set_restore (b : List Nat) (si di x y : Nat) :
    (((b.set di x).set si y).set si ((b[si]?).getD 0)).set di ((b[di]?).getD 0) = b := by
  rw [List.set_set]
  exact set_restore b si di x

/-! ## State preservation

The C search mutates the shared state only in balanced ways: every make
of a move is undone at lines 417-418, stack_depth is restored around
every recursive call, and the en passant square is written back at line
447.  The lemmas below prove that every loop level hands back the state
it received, assuming the recursion function does the same. -/

/-- The state carried by a loop outcome. -/
def outState : StepOut → ChessState
  | .ret r => r.state
  | .cont s _ _ _ => s

/-- The recursion argument preserves the state it is given. -/
def RecPres : Option (ChessState → Int → Int → Nat → PlayResult) → Prop
  | none => True
  | some f => ∀ s oh th c, (f s oh th c).state = s

/-- The recursion function that play d uses. -/
def recOf : Nat → Option (ChessState → Int → Int → Nat → PlayResult)
  | 0 => none
  | d + 1 => some (play d)

/-- play d is playBody applied to its recursion function. -/
theorem play_eq_body (d : Nat) (s : ChessState) (oh th : Int) (c : Nat) :
    play d s oh th c = playBody (recOf d) s oh th c := by
  cases d <;> rfl

/-- The make-recurse-unmake step hands back exactly the state it was
given. -/
theorem playStep_state (rec : Option (ChessState → Int → Int → Nat → PlayResult))
    (hrec : RecPres rec) (s : ChessState) (c si piece diN captured : Nat) :
    (playStep rec s c si piece diN captured).1 = s := by
  obtain ⟨b, dl, e, l, sd⟩ := s
  unfold playStep
  by_cases hd : sd < dl
  · cases rec with
    | none => simp [hd, set_restore]
    | some f =>
      have hf := hrec { board := (b.set diN (piece &&& PIECE_FULL_MASK)).set si EMPTY,
                        depth_limit := dl, enp := e, legal_move_check := l,
                        stack_depth := sd + 2 } (-1) (-1) (c ^^^ COLOR_MASK)
      simp [hd, hf, set_restore]
  · simp [hd, set_restore]

/-- The ray loop hands back the state it was given. -/
theorem playRay_state (rec : Option (ChessState → Int → Int → Nat → PlayResult))
    (hrec : RecPres rec) (oh th : Int) (c si piece cnt off : Nat) (slid : Bool) (md : Nat) :
    ∀ fuel s di bp bf bt,
      outState (playRay rec oh th c si piece cnt off slid md fuel s di bp bf bt) = s := by
  intro fuel
  induction fuel with
  | zero => intro s di bp bf bt; rfl
  | succ n ih =>
    intro s di bp bf bt
    rw [playRay]
    cases hp : rayProbe s.board s.enp c cnt off md di with
    | none => rfl
    | some x =>
      obtain ⟨di', target, gen⟩ := x
      by_cases hg : gen = true
      · simp only [hg, if_true]
        by_cases hk : target &&& PIECE_MASK = KING
        · simp [hk, outState]
        · simp only [hk, if_false]
          by_cases hv : s.legal_move_check = true ∧ s.stack_depth = 0
          · simp only [hv, if_true]
            by_cases hm : (si : Int) = oh ∧ di' = th
            · simp [hm, outState]
            · simp [hm, ih]
          · simp only [hv, if_false]
            have hsm := playStep_state rec hrec s c si piece di'.toNat (target &&& PIECE_MASK)
            by_cases hb : slid = false ∨ target &&& PIECE_FULL_MASK ≠ EMPTY
            · simp [hb, outState, hsm]
            · simp [hb, hsm, ih]
      · simp [hg, outState]

/-- The direction loop hands back the state it was given. -/
theorem playDirs_state (rec : Option (ChessState → Int → Int → Nat → PlayResult))
    (hrec : RecPres rec) (oh th : Int) (c si piece cnt off : Nat) (slid : Bool) :
    ∀ n md s bp bf bt,
      outState (playDirs rec oh th c si piece cnt off slid n md s bp bf bt) = s := by
  intro n
  induction n with
  | zero => intro md s bp bf bt; rfl
  | succ n ih =>
    intro md s bp bf bt
    rw [playDirs]
    have hray := playRay_state rec hrec oh th c si piece cnt off slid md 128 s (si : Int) bp bf bt
    cases hr : playRay rec oh th c si piece cnt off slid md 128 s (si : Int) bp bf bt with
    | ret r => rw [hr] at hray; exact hray
    | cont s' bp' bf' bt' =>
      rw [hr] at hray
      simp only [outState] at hray
      simp [ih, hray]

/-- The square loop hands back the state it was given. -/
theorem playSquares_state (rec : Option (ChessState → Int → Int → Nat → PlayResult))
    (hrec : RecPres rec) (oh th : Int) (c : Nat) :
    ∀ n si s bp bf bt,
      outState (playSquares rec oh th c n si s bp bf bt) = s := by
  intro n
  induction n with
  | zero => intro si s bp bf bt; rfl
  | succ n ih =>
    intro si s bp bf bt
    simp only [playSquares]
    by_cases h88 : si &&& 0x88 ≠ 0
    · rw [if_pos h88]; exact ih (si + 1) s bp bf bt
    · rw [if_neg h88]
      by_cases hpt : 1 ≤ (s.board.getD si 0 ^^^ c) &&& PIECE_FULL_MASK ∧
          (s.board.getD si 0 ^^^ c) &&& PIECE_FULL_MASK ≤ 6
      · rw [if_pos hpt]
        rcases hmp : moveParams ((s.board.getD si 0 ^^^ c) &&& PIECE_FULL_MASK) c with
          ⟨cnt, off, slid⟩
        simp only [hmp]
        have hdirs := playDirs_state rec hrec oh th c si (s.board.getD si 0) cnt off slid
          cnt 0 s bp bf bt
        cases hd : playDirs rec oh th c si (s.board.getD si 0) cnt off slid cnt 0 s bp bf bt with
        | ret r => rw [hd] at hdirs; exact hdirs
        | cont s' bp' bf' bt' =>
          rw [hd] at hdirs
          simp only [outState] at hdirs
          subst hdirs
          exact ih (si + 1) _ bp' bf' bt'
      · rw [if_neg hpt]; exact ih (si + 1) s bp bf bt

/-- play hands back the state it was given (every make is unmade, the
stack depth is restored around every recursive call, and the en passant
square is written back at line 447). -/
theorem play_state : ∀ (d : Nat) (s : ChessState) (oh th : Int) (c : Nat),
    (play d s oh th c).state = s := by
  intro d
  induction d with
  | zero =>
    intro s oh th c
    show (playBody none s oh th c).state = s
    unfold playBody
    have hsq := playSquares_state none trivial oh th c 120 0 s MIN_SCORE (-1) (-1)
    cases hs : playSquares none oh th c 120 0 s MIN_SCORE (-1) (-1) with
    | ret r => rw [hs] at hsq; simpa using hsq
    | cont s' bp bf bt =>
      rw [hs] at hsq
      simp only [outState] at hsq
      subst hsq
      rfl
  | succ d ih =>
    intro s oh th c
    show (playBody (some (play d)) s oh th c).state = s
    unfold playBody
    have hpres : RecPres (some (play d)) := fun s' oh' th' c' => ih s' oh' th' c'
    have hsq := playSquares_state (some (play d)) hpres oh th c 120 0 s MIN_SCORE (-1) (-1)
    cases hs : playSquares (some (play d)) oh th c 120 0 s MIN_SCORE (-1) (-1) with
    | ret r => rw [hs] at hsq; simpa using hsq
    | cont s' bp bf bt =>
      rw [hs] at hsq
      simp only [outState] at hsq
      subst hsq
      rfl

/-- RecPres holds for every recursion function play uses. -/
theorem recPres_recOf (d : Nat) : RecPres (recOf d) := by
  cases d with
  | zero => trivial
  | succ d => exact fun s oh th c => play_state d s oh th c

/-! ## Correspondence of the search loops with the enumerator

The lemmas below prove that, outside validation mode, every loop level
of play behaves exactly like processMovesR applied to the list of moves
the enumerator produces for that loop level: the board is restored
between moves, so the whole scan runs over the entry board. -/

/-- A move whose target is not a king has a nonempty full-mask type
exactly when its masked type is nonzero; in particular a king target is
never the empty cell. -/
theorem king_full_ne_empty (target : Nat) (hk : target &&& PIECE_MASK = KING) :
    target &&& PIECE_FULL_MASK ≠ EMPTY := by
  intro h
  have h157 : (0x0F : Nat) &&& 0x07 = 0x07 := by decide
  have : target &&& PIECE_FULL_MASK &&& PIECE_MASK = target &&& PIECE_MASK := by
    show target &&& 0x0F &&& 0x07 = target &&& 0x07
    rw [Nat.land_assoc, h157]
  rw [h, hk] at this
  simp [EMPTY, KING] at this

/-- processMovesR hands back the state it was given. -/
theorem processMovesR_state (rec : Option (ChessState → Int → Int → Nat → PlayResult))
    (s : ChessState) (c : Nat) :
    ∀ l bp bf bt, outState (processMovesR rec s c l bp bf bt) = s := by
  intro l
  induction l with
  | nil => intro bp bf bt; rfl
  | cons m rest ih =>
    intro bp bf bt
    rw [processMovesR]
    by_cases hk : m.target &&& PIECE_MASK = KING
    · rw [if_pos hk]; rfl
    · rw [if_neg hk]; exact ih _ _ _

/-- Processing a concatenation of move lists processes the first list
and, unless it returned early, continues with the second from the
accumulated values. -/
theorem processMovesR_append (rec : Option (ChessState → Int → Int → Nat → PlayResult))
    (s : ChessState) (c : Nat) (l1 l2 : List GenMove) :
    ∀ bp bf bt,
      processMovesR rec s c (l1 ++ l2) bp bf bt =
        match processMovesR rec s c l1 bp bf bt with
        | .ret r => .ret r
        | .cont _ bp' bf' bt' => processMovesR rec s c l2 bp' bf' bt' := by
  induction l1 with
  | nil => intro bp bf bt; rfl
  | cons m rest ih =>
    intro bp bf bt
    rw [List.cons_append, processMovesR, processMovesR]
    by_cases hk : m.target &&& PIECE_MASK = KING
    · rw [if_pos hk, if_pos hk]
    · rw [if_neg hk, if_neg hk]
      exact ih _ _ _

/-- The score component of the make-recurse-unmake step is the
specification-side move score. -/
theorem playStep_score (rec : Option (ChessState → Int → Int → Nat → PlayResult))
    (s : ChessState) (c si : Nat) (di' : Int) (target : Nat) :
    (playStep rec s c si (s.board.getD si 0) di'.toNat (target &&& PIECE_MASK)).2 =
      moveScoreR rec s c ⟨si, di', target⟩ := by
  unfold playStep moveScoreR
  by_cases hd : s.stack_depth < s.depth_limit
  · cases rec <;> simp [hd]
  · simp [hd]

/-- The ray loop outside validation mode equals processMovesR over the
ray-level enumeration. -/
theorem playRay_corr (rec : Option (ChessState → Int → Int → Nat → PlayResult))
    (hrec : RecPres rec) (oh th : Int) (c si cnt off : Nat) (slid : Bool) (md : Nat) :
    ∀ fuel (s : ChessState) (di : Int) (bp bf bt : Int),
      s.legal_move_check = false →
      playRay rec oh th c si (s.board.getD si 0) cnt off slid md fuel s di bp bf bt =
        processMovesR rec s c (genRay s.board s.enp c si cnt off slid md fuel di) bp bf bt := by
  intro fuel
  induction fuel with
  | zero => intro s di bp bf bt hl; rfl
  | succ n ih =>
    intro s di bp bf bt hl
    rw [playRay, genRay]
    cases hpr : rayProbe s.board s.enp c cnt off md di with
    | none => rfl
    | some x =>
      obtain ⟨di', target, gen⟩ := x
      dsimp only
      by_cases hg : gen = true
      · rw [if_pos hg, if_pos hg]
        by_cases hk : target &&& PIECE_MASK = KING
        · rw [if_pos hk]
          by_cases hbreak : slid = false ∨ target &&& PIECE_FULL_MASK ≠ EMPTY
          · rw [if_pos hbreak, processMovesR]
            dsimp only
            rw [if_pos hk]
          · rw [if_neg hbreak, processMovesR]
            dsimp only
            rw [if_pos hk]
        · rw [if_neg hk]
          have hvf : ¬(s.legal_move_check = true ∧ s.stack_depth = 0) := by
            intro hC; rw [hl] at hC; exact Bool.false_ne_true hC.1
          rw [if_neg hvf]
          have hsm1 : (playStep rec s c si (s.board.getD si 0) di'.toNat
              (target &&& PIECE_MASK)).1 = s :=
            playStep_state rec hrec s c si (s.board.getD si 0) di'.toNat (target &&& PIECE_MASK)
          have hsm2 : (playStep rec s c si (s.board.getD si 0) di'.toNat
              (target &&& PIECE_MASK)).2 = moveScoreR rec s c ⟨si, di', target⟩ :=
            playStep_score rec s c si di' target
          rw [hsm1, hsm2]
          by_cases hbreak : slid = false ∨ target &&& PIECE_FULL_MASK ≠ EMPTY
          · rw [if_pos hbreak, if_pos hbreak, processMovesR]
            dsimp only
            rw [if_neg hk, processMovesR]
          · rw [if_neg hbreak, if_neg hbreak, processMovesR]
            dsimp only
            rw [if_neg hk]
            exact ih s di' _ _ _ hl
      · rw [if_neg hg, if_neg hg]
        rfl

/-- The direction loop outside validation mode equals processMovesR
over the direction-level enumeration. -/
theorem playDirs_corr (rec : Option (ChessState → Int → Int → Nat → PlayResult))
    (hrec : RecPres rec) (oh th : Int) (c si cnt off : Nat) (slid : Bool) :
    ∀ n md (s : ChessState) (bp bf bt : Int),
      s.legal_move_check = false →
      playDirs rec oh th c si (s.board.getD si 0) cnt off slid n md s bp bf bt =
        processMovesR rec s c (genDirs s.board s.enp c si cnt off slid n md) bp bf bt := by
  intro n
  induction n with
  | zero => intro md s bp bf bt hl; rfl
  | succ n ih =>
    intro md s bp bf bt hl
    rw [playDirs, genDirs, processMovesR_append,
      playRay_corr rec hrec oh th c si cnt off slid md 128 s (si : Int) bp bf bt hl]
    have hstate := processMovesR_state rec s c
      (genRay s.board s.enp c si cnt off slid md 128 (si : Int)) bp bf bt
    cases hres : processMovesR rec s c
        (genRay s.board s.enp c si cnt off slid md 128 (si : Int)) bp bf bt with
    | ret r => rfl
    | cont s' bp' bf' bt' =>
      rw [hres] at hstate
      simp only [outState] at hstate
      subst hstate
      exact ih (md + 1) _ bp' bf' bt' hl

/-- The square loop outside validation mode equals processMovesR over
the square-level enumeration. -/
theorem playSquares_corr (rec : Option (ChessState → Int → Int → Nat → PlayResult))
    (hrec : RecPres rec) (oh th : Int) (c : Nat) :
    ∀ n si (s : ChessState) (bp bf bt : Int),
      s.legal_move_check = false →
      playSquares rec oh th c n si s bp bf bt =
        processMovesR rec s c (genSquares s.board s.enp c n si) bp bf bt := by
  intro n
  induction n with
  | zero => intro si s bp bf bt hl; rfl
  | succ n ih =>
    intro si s bp bf bt hl
    simp only [playSquares, genSquares]
    by_cases h88 : si &&& 0x88 ≠ 0
    · rw [if_pos h88, if_pos h88]; exact ih (si + 1) s bp bf bt hl
    · rw [if_neg h88, if_neg h88]
      by_cases hpt : 1 ≤ (s.board.getD si 0 ^^^ c) &&& PIECE_FULL_MASK ∧
          (s.board.getD si 0 ^^^ c) &&& PIECE_FULL_MASK ≤ 6
      · rw [if_pos hpt, if_pos hpt]
        rcases hmp : moveParams ((s.board.getD si 0 ^^^ c) &&& PIECE_FULL_MASK) c with
          ⟨cnt, off, slid⟩
        simp only [hmp]
        rw [processMovesR_append,
          playDirs_corr rec hrec oh th c si cnt off slid cnt 0 s bp bf bt hl]
        have hstate := processMovesR_state rec s c
          (genDirs s.board s.enp c si cnt off slid cnt 0) bp bf bt
        cases hres : processMovesR rec s c
            (genDirs s.board s.enp c si cnt off slid cnt 0) bp bf bt with
        | ret r => rfl
        | cont s' bp' bf' bt' =>
          rw [hres] at hstate
          simp only [outState] at hstate
          subst hstate
          exact ih (si + 1) _ bp' bf' bt' hl
      · rw [if_neg hpt, if_neg hpt]; exact ih (si + 1) s bp bf bt hl

/-- Outside validation mode, one call to play processes exactly the
enumerated move list of its position: an early return at the first
enumerated king capture, otherwise the negamax accumulation over the
whole list starting from MIN_SCORE. -/
theorem playBody_corr (rec : Option (ChessState → Int → Int → Nat → PlayResult))
    (hrec : RecPres rec) (s : ChessState) (oh th : Int) (c : Nat)
    (hl : s.legal_move_check = false) :
    playBody rec s oh th c =
      match processMovesR rec s c (genMoves s.board s.enp c) MIN_SCORE (-1) (-1) with
      | .ret r => r
      | .cont _ bp bf bt =>
        { state := s, score := bp, king_captured := false, best_from := bf, best_to := bt } := by
  unfold playBody genMoves
  rw [playSquares_corr rec hrec oh th c 120 0 s MIN_SCORE (-1) (-1) hl]
  have hstate := processMovesR_state rec s c
    (genSquares s.board s.enp c 120 0) MIN_SCORE (-1) (-1)
  cases hres : processMovesR rec s c (genSquares s.board s.enp c 120 0) MIN_SCORE (-1) (-1) with
  | ret r => rfl
  | cont s' bp bf bt =>
    rw [hres] at hstate
    simp only [outState] at hstate
    subst hstate
    dsimp only
    have hif : (if s'.legal_move_check = true ∧ s'.stack_depth = 0 then ILLEGAL_MOVE_SCORE
        else bp) = bp := by simp [hl]
    rw [hif]

/-! ## Negamax fold lemmas -/

/-- The generic negamax fold (negamaxFold with an arbitrary recursion
function and starting accumulator). -/
def negamaxFoldR (rec : Option (ChessState → Int → Int → Nat → PlayResult))
    (s : ChessState) (c : Nat) (l : List GenMove) (init : Int × Int × Int) :
    Int × Int × Int :=
  l.foldl
    (fun acc m =>
      let sc := moveScoreR rec s c m
      if sc > acc.1 then
        (sc, if s.stack_depth = 0 then (m.si : Int) else acc.2.1,
             if s.stack_depth = 0 then m.di else acc.2.2)
      else acc)
    init

/-- negamaxFold is the generic fold at the recursion function of
play (d+1) and the starting accumulator of play. -/
theorem negamaxFold_eq (d : Nat) (s : ChessState) (c : Nat) (l : List GenMove) :
    negamaxFold d s c l = negamaxFoldR (some (play d)) s c l (MIN_SCORE, -1, -1) := rfl

/-- The score component of the negamax fold is the plain maximum of the
move scores, starting from the initial score. -/
theorem negamaxFoldR_fst (rec : Option (ChessState → Int → Int → Nat → PlayResult))
    (s : ChessState) (c : Nat) :
    ∀ (l : List GenMove) (init : Int × Int × Int),
      (negamaxFoldR rec s c l init).1 = (l.map (moveScoreR rec s c)).foldl max init.1 := by
  intro l
  induction l with
  | nil => intro init; rfl
  | cons m rest ih =>
    intro init
    rw [negamaxFoldR, List.foldl_cons, List.map_cons, List.foldl_cons]
    have hstep :
        (if moveScoreR rec s c m > init.1 then
          (moveScoreR rec s c m,
            if s.stack_depth = 0 then (m.si : Int) else init.2.1,
            if s.stack_depth = 0 then m.di else init.2.2)
         else init).1 = max init.1 (moveScoreR rec s c m) := by
      by_cases hgt : moveScoreR rec s c m > init.1
      · rw [if_pos hgt]
        exact (max_eq_right (le_of_lt hgt)).symm
      · rw [if_neg hgt]
        exact (max_eq_left (le_of_not_lt hgt)).symm
    calc (negamaxFoldR rec s c rest _).1
        = (rest.map (moveScoreR rec s c)).foldl max
            (if moveScoreR rec s c m > init.1 then _ else init).1 := ih _
      _ = _ := by rw [hstep]

/-- Processing a move list that contains no king capture returns the
negamax fold over the whole list (no early return happens). -/
theorem processMovesR_noKing (rec : Option (ChessState → Int → Int → Nat → PlayResult))
    (s : ChessState) (c : Nat) :
    ∀ (l : List GenMove), (∀ m ∈ l, m.target &&& PIECE_MASK ≠ KING) →
      ∀ bp bf bt,
        processMovesR rec s c l bp bf bt =
          .cont s (negamaxFoldR rec s c l (bp, bf, bt)).1
            (negamaxFoldR rec s c l (bp, bf, bt)).2.1
            (negamaxFoldR rec s c l (bp, bf, bt)).2.2 := by
  intro l
  induction l with
  | nil => intro _ bp bf bt; rfl
  | cons m rest ih =>
    intro hnk bp bf bt
    have hk : m.target &&& PIECE_MASK ≠ KING := hnk m (List.mem_cons_self m rest)
    rw [processMovesR, if_neg hk]
    have hrest : ∀ m' ∈ rest, m'.target &&& PIECE_MASK ≠ KING := by
      intro m' hm'
      exact hnk m' (List.mem_cons_of_mem m hm')
    rw [ih hrest]
    rfl

/-- Processing a move list that contains a king capture returns early
with the king-capture score (doubled beyond MAX_DEPTH_PLY1) and the
king-captured flag, whatever the other moves score. -/
theorem processMovesR_king (rec : Option (ChessState → Int → Int → Nat → PlayResult))
    (s : ChessState) (c : Nat) :
    ∀ (l : List GenMove), (∃ m ∈ l, m.target &&& PIECE_MASK = KING) →
      ∀ bp bf bt, ∃ bf' bt',
        processMovesR rec s c l bp bf bt =
          .ret { state := s,
                 score := if MAX_DEPTH_PLY1 < s.stack_depth then MAX_CHECKMATE_SCORE
                          else KING_CAPTURE_SCORE,
                 king_captured := true, best_from := bf', best_to := bt' } := by
  intro l
  induction l with
  | nil => intro h; exact absurd h (by simp)
  | cons m rest ih =>
    intro hex bp bf bt
    by_cases hk : m.target &&& PIECE_MASK = KING
    · exact ⟨bf, bt, by rw [processMovesR, if_pos hk]⟩
    · have hrest : ∃ m' ∈ rest, m'.target &&& PIECE_MASK = KING := by
        rcases hex with ⟨m', hm', hkm'⟩
        rcases List.mem_cons.mp hm' with heq | hmem
        · exact absurd (heq ▸ hkm') hk
        · exact ⟨m', hmem, hkm'⟩
      rw [processMovesR, if_neg hk]
      exact ih hrest _ _ _

/-! ## The validation-mode walk -/

/-- The walk a depth-zero validation scan performs over its scan
sequence: early king-capture return (score not doubled at depth zero),
early success return at the candidate match, fall-through otherwise;
the accumulators are never touched. -/
def vStep (s : ChessState) (oh th bp bf bt : Int) : List GenMove → StepOut
  | [] => .cont s bp bf bt
  | m :: rest =>
    if m.target &&& PIECE_MASK = KING then
      .ret { state := s, score := KING_CAPTURE_SCORE, king_captured := true,
             best_from := bf, best_to := bt }
    else if (m.si : Int) = oh ∧ m.di = th then
      .ret { state := s, score := 0, king_captured := false, best_from := bf, best_to := bt }
    else vStep s oh th bp bf bt rest

/-- Walking a concatenation walks the first list and, unless it
returned early, the second. -/
theorem vStep_append (s : ChessState) (oh th bp bf bt : Int) :
    ∀ (l1 l2 : List GenMove),
      vStep s oh th bp bf bt (l1 ++ l2) =
        match vStep s oh th bp bf bt l1 with
        | .ret r => .ret r
        | .cont _ _ _ _ => vStep s oh th bp bf bt l2 := by
  intro l1 l2
  induction l1 with
  | nil => rfl
  | cons m rest ih =>
    rw [List.cons_append, vStep, vStep]
    by_cases hk : m.target &&& PIECE_MASK = KING
    · rw [if_pos hk, if_pos hk]
    · rw [if_neg hk, if_neg hk]
      by_cases hm : (m.si : Int) = oh ∧ m.di = th
      · rw [if_pos hm, if_pos hm]
      · rw [if_neg hm, if_neg hm]
        exact ih

/-- A validation walk either returns early with a result whose state is
the scanned state, or falls through with the untouched accumulators. -/
theorem vStep_cases (s : ChessState) (oh th bp bf bt : Int) :
    ∀ (l : List GenMove),
      (∃ r, vStep s oh th bp bf bt l = .ret r ∧ r.state = s) ∨
        vStep s oh th bp bf bt l = .cont s bp bf bt := by
  intro l
  induction l with
  | nil => exact Or.inr rfl
  | cons m rest ih =>
    rw [vStep]
    by_cases hk : m.target &&& PIECE_MASK = KING
    · rw [if_pos hk]
      exact Or.inl ⟨_, rfl, rfl⟩
    · rw [if_neg hk]
      by_cases hm : (m.si : Int) = oh ∧ m.di = th
      · rw [if_pos hm]
        exact Or.inl ⟨_, rfl, rfl⟩
      · rw [if_neg hm]
        exact ih

/-- The score the validation walk produces (the sentinel on
fall-through) is vOutcome of the walked list. -/
theorem vStep_score (s : ChessState) (oh th bp bf bt : Int) :
    ∀ (l : List GenMove),
      (match vStep s oh th bp bf bt l with
       | .ret r => r.score
       | .cont _ _ _ _ => ILLEGAL_MOVE_SCORE) = vOutcome oh th l := by
  intro l
  induction l with
  | nil => rfl
  | cons m rest ih =>
    rw [vStep, vOutcome]
    by_cases hk : m.target &&& PIECE_MASK = KING
    · rw [if_pos hk, if_pos hk]
    · rw [if_neg hk, if_neg hk]
      by_cases hm : (m.si : Int) = oh ∧ m.di = th
      · rw [if_pos hm, if_pos hm]
      · rw [if_neg hm, if_neg hm]
        exact ih

/-- In validation mode at depth zero, the ray loop is the validation
walk over the ray scan: it never touches the state, the accumulators or
the board, and never invokes the recursion function. -/
theorem playRay_vcorr (rec : Option (ChessState → Int → Int → Nat → PlayResult))
    (oh th : Int) (c si piece cnt off : Nat) (slid : Bool) (md : Nat) :
    ∀ fuel (s : ChessState) (di : Int) (bp bf bt : Int),
      s.legal_move_check = true → s.stack_depth = 0 →
      playRay rec oh th c si piece cnt off slid md fuel s di bp bf bt =
        vStep s oh th bp bf bt (vRay s.board s.enp c si cnt off md fuel di) := by
  intro fuel
  induction fuel with
  | zero => intro s di bp bf bt hl hd0; rfl
  | succ n ih =>
    intro s di bp bf bt hl hd0
    rw [playRay, vRay]
    cases hpr : rayProbe s.board s.enp c cnt off md di with
    | none => rfl
    | some x =>
      obtain ⟨di', target, gen⟩ := x
      dsimp only
      by_cases hg : gen = true
      · rw [if_pos hg, if_pos hg]
        by_cases hk : target &&& PIECE_MASK = KING
        · rw [if_pos hk, vStep]
          dsimp only
          rw [if_pos hk, hd0]
          have h40 : ¬(MAX_DEPTH_PLY1 < 0) := by decide
          rw [if_neg h40]
        · rw [if_neg hk, if_pos ⟨hl, hd0⟩, vStep]
          dsimp only
          rw [if_neg hk]
          by_cases hm : (si : Int) = oh ∧ di' = th
          · rw [if_pos hm, if_pos hm]
          · rw [if_neg hm, if_neg hm]
            exact ih s di' bp bf bt hl hd0
      · rw [if_neg hg, if_neg hg]
        rfl

/-- In validation mode at depth zero, the direction loop is the
validation walk over the direction scan. -/
theorem playDirs_vcorr (rec : Option (ChessState → Int → Int → Nat → PlayResult))
    (oh th : Int) (c si piece cnt off : Nat) (slid : Bool) :
    ∀ n md (s : ChessState) (bp bf bt : Int),
      s.legal_move_check = true → s.stack_depth = 0 →
      playDirs rec oh th c si piece cnt off slid n md s bp bf bt =
        vStep s oh th bp bf bt (vDirs s.board s.enp c si cnt off n md) := by
  intro n
  induction n with
  | zero => intro md s bp bf bt hl hd0; rfl
  | succ n ih =>
    intro md s bp bf bt hl hd0
    rw [playDirs, vDirs, vStep_append,
      playRay_vcorr rec oh th c si piece cnt off slid md 128 s (si : Int) bp bf bt hl hd0]
    rcases vStep_cases s oh th bp bf bt (vRay s.board s.enp c si cnt off md 128 (si : Int)) with
      ⟨r, hr, _⟩ | hc
    · rw [hr]
    · rw [hc]
      exact ih (md + 1) s bp bf bt hl hd0

/-- In validation mode at depth zero, the square loop is the validation
walk over the square scan. -/
theorem playSquares_vcorr (rec : Option (ChessState → Int → Int → Nat → PlayResult))
    (oh th : Int) (c : Nat) :
    ∀ n si (s : ChessState) (bp bf bt : Int),
      s.legal_move_check = true → s.stack_depth = 0 →
      playSquares rec oh th c n si s bp bf bt =
        vStep s oh th bp bf bt (vSquares s.board s.enp c n si) := by
  intro n
  induction n with
  | zero => intro si s bp bf bt hl hd0; rfl
  | succ n ih =>
    intro si s bp bf bt hl hd0
    simp only [playSquares, vSquares]
    by_cases h88 : si &&& 0x88 ≠ 0
    · rw [if_pos h88, if_pos h88]; exact ih (si + 1) s bp bf bt hl hd0
    · rw [if_neg h88, if_neg h88]
      by_cases hpt : 1 ≤ (s.board.getD si 0 ^^^ c) &&& PIECE_FULL_MASK ∧
          (s.board.getD si 0 ^^^ c) &&& PIECE_FULL_MASK ≤ 6
      · rw [if_pos hpt, if_pos hpt]
        rcases hmp : moveParams ((s.board.getD si 0 ^^^ c) &&& PIECE_FULL_MASK) c with
          ⟨cnt, off, slid⟩
        simp only [hmp]
        rw [vStep_append,
          playDirs_vcorr rec oh th c si (s.board.getD si 0) cnt off slid cnt 0 s
            bp bf bt hl hd0]
        rcases vStep_cases s oh th bp bf bt (vDirs s.board s.enp c si cnt off cnt 0) with
          ⟨r, hr, _⟩ | hc
        · rw [hr]
        · rw [hc]
          exact ih (si + 1) s bp bf bt hl hd0
      · rw [if_neg hpt, if_neg hpt]; exact ih (si + 1) s bp bf bt hl hd0

/-- In validation mode at depth zero, a call to play leaves the state
(the board included) untouched and returns the score of the
non-recursive validation walk over the scan sequence. -/
theorem playBody_vcorr (rec : Option (ChessState → Int → Int → Nat → PlayResult))
    (s : ChessState) (oh th : Int) (c : Nat)
    (hl : s.legal_move_check = true) (hd0 : s.stack_depth = 0) :
    (playBody rec s oh th c).state = s ∧
      (playBody rec s oh th c).score = vOutcome oh th (vScan s.board s.enp c) := by
  unfold playBody vScan
  rw [playSquares_vcorr rec oh th c 120 0 s MIN_SCORE (-1) (-1) hl hd0]
  have hsc := vStep_score s oh th MIN_SCORE (-1) (-1) (vSquares s.board s.enp c 120 0)
  rcases vStep_cases s oh th MIN_SCORE (-1) (-1) (vSquares s.board s.enp c 120 0) with
    ⟨r, hr, hrs⟩ | hc
  · rw [hr]
    rw [hr] at hsc
    exact ⟨hrs, hsc⟩
  · rw [hc]
    rw [hc] at hsc
    dsimp only
    constructor
    · rfl
    · rw [if_pos ⟨hl, hd0⟩]
      exact hsc

/-! ## Sliding and stepping rays -/

/-- For a sliding piece (offset below 16, no pawn logic; displacement
index in range, so the dead wrap never fires), the code ray equals the
specification slide semantics along the fixed displacement. -/
theorem genRay_slide (b : List Nat) (enp : Int) (c si cnt off md : Nat)
    (hoff : off < 16) (hwrap : off + md < 24) :
    ∀ fuel di,
      genRay b enp c si cnt off true md fuel di =
        specSlide b c si (displacement.getD (off + md) 0) fuel di := by
  intro fuel
  induction fuel with
  | zero => intro di; rfl
  | succ n ih =>
    intro di
    rw [genRay, specSlide]
    have hprobe : rayProbe b enp c cnt off md di =
        (if offBoard (di + displacement.getD (off + md) 0) then none
         else
           some (di + displacement.getD (off + md) 0,
             b.getD (di + displacement.getD (off + md) 0).toNat 0,
             if b.getD (di + displacement.getD (off + md) 0).toNat 0 &&& PIECE_FULL_MASK
                 = EMPTY then
               true
             else
               decide (b.getD (di + displacement.getD (off + md) 0).toNat 0 &&& COLOR_MASK ≠ c ∧
                 b.getD (di + displacement.getD (off + md) 0).toNat 0 &&& PIECE_FULL_MASK &&&
                   PIECE_MASK < 7))) := by
      unfold rayProbe
      dsimp only
      rw [if_neg (not_le.mpr hwrap)]
      by_cases hob : offBoard (di + displacement.getD (off + md) 0) = true
      · rw [if_pos hob, if_pos hob]
      · rw [if_neg hob, if_neg hob]
        have hnp : ¬(16 ≤ off ∧ cnt < 3) := fun hC => absurd hC.1 (not_le.mpr hoff)
        by_cases hem : b.getD (di + displacement.getD (off + md) 0).toNat 0 &&&
            PIECE_FULL_MASK = EMPTY
        · rw [if_pos hem, if_pos hem, if_neg hnp, if_neg (not_le.mpr hoff)]
        · rw [if_neg hem, if_neg hem]
    rw [hprobe]
    set di' := di + displacement.getD (off + md) 0 with hdi'
    by_cases hob : offBoard di' = true
    · rw [if_pos hob, if_pos hob]
    · rw [if_neg hob, if_neg hob]
      dsimp only
      by_cases hem : b.getD di'.toNat 0 &&& PIECE_FULL_MASK = EMPTY
      · rw [if_pos hem, if_pos hem, if_pos rfl]
        have hnbreak : ¬(true = false ∨ b.getD di'.toNat 0 &&& PIECE_FULL_MASK ≠ EMPTY) := by
          intro hC
          rcases hC with hC | hC
          · exact absurd hC (by decide)
          · exact hC hem
        rw [if_neg hnbreak]
        rw [ih di']
      · rw [if_neg hem, if_neg hem]
        have hmask : b.getD di'.toNat 0 &&& PIECE_FULL_MASK &&& PIECE_MASK =
            b.getD di'.toNat 0 &&& PIECE_MASK := by
          show b.getD di'.toNat 0 &&& 0x0F &&& 0x07 = b.getD di'.toNat 0 &&& 0x07
          have h157 : (0x0F : Nat) &&& 0x07 = 0x07 := by decide
          rw [Nat.land_assoc, h157]
        by_cases hen : b.getD di'.toNat 0 &&& COLOR_MASK ≠ c ∧
            b.getD di'.toNat 0 &&& PIECE_MASK < 7
        · have hgen : (decide (b.getD di'.toNat 0 &&& COLOR_MASK ≠ c ∧
              b.getD di'.toNat 0 &&& PIECE_FULL_MASK &&& PIECE_MASK < 7)) = true := by
            rw [hmask]
            exact decide_eq_true hen
          rw [hgen, if_pos rfl, if_pos (Or.inr hem), if_pos hen]
        · have hgen : (decide (b.getD di'.toNat 0 &&& COLOR_MASK ≠ c ∧
              b.getD di'.toNat 0 &&& PIECE_FULL_MASK &&& PIECE_MASK < 7)) = false := by
            rw [hmask]
            exact decide_eq_false hen
          rw [hgen, if_neg Bool.false_ne_true, if_neg hen]

/-- A ray of a non-sliding piece generates at most one candidate. -/
theorem genRay_step_len (b : List Nat) (enp : Int) (c si cnt off md : Nat) :
    ∀ fuel di, (genRay b enp c si cnt off false md fuel di).length ≤ 1 := by
  intro fuel di
  cases fuel with
  | zero => simp [genRay]
  | succ n =>
    rw [genRay]
    cases hpr : rayProbe b enp c cnt off md di with
    | none => simp
    | some x =>
      obtain ⟨di', target, gen⟩ := x
      dsimp only
      by_cases hg : gen = true
      · rw [if_pos hg, if_pos (Or.inl rfl)]
        simp
      · rw [if_neg hg]
        simp

/-! ## Board value lemmas for make_move -/

/-- Reading an untouched cell through a write. -/
theorem getD_set_ne (l : List Nat) {i j : Nat} (v : Nat) (h : i ≠ j) :
    (l.set i v).getD j 0 = l.getD j 0 := by
  rw [List.getD_eq_getElem?_getD, List.getD_eq_getElem?_getD, List.getElem?_set, if_neg h]

/-- Reading a written cell back. -/
theorem getD_set_eq (l : List Nat) {i : Nat} (v : Nat) (h : i < l.length) :
    (l.set i v).getD i 0 = v := by
  rw [List.getD_eq_getElem?_getD, List.getElem?_set, if_pos rfl, if_pos h]
  rfl

/-! ## The claims -/

/-- C1 (counterexample): in the standard initial position the candidate
pair B1 to D5 (0x71 to 0x33) is reported legal by play_validate (score
0, not the sentinel -127) although the enumerator never generates that
pair for White: after the non-matching knight move 0x71 to 0x52 the
validation loop continues the knight ray to 0x33 instead of stopping a
non-sliding piece after one step, so "legal if and only if enumerated"
fails. -/
theorem C1_counterexample :
    play_validate initial_state 0x71 0x33 WHITE = 0 ∧
    play_validate initial_state 0x71 0x33 WHITE ≠ ILLEGAL_MOVE_SCORE ∧
    (0x71, (0x33 : Int)) ∉ (genMoves initial_board 0 WHITE).map (fun m => (m.si, m.di)) := by
  refine ⟨by decide, by decide, by decide⟩

/-- C1 (amended): play_validate returns exactly the outcome of the
depth-zero validation walk over the validation scan sequence: the scan
continues each ray after a non-matching generated move (even for
non-sliding pieces and through enemy pieces), returns the king-capture
score 78 at the first scanned king capture, 0 at the first match of the
candidate pair, and the illegal-move sentinel -127 exactly when the
scan completes with neither. -/
theorem C1_amended_validate_scan (s : ChessState) (origin target : Int) (c : Nat) :
    play_validate s origin target c = vOutcome origin target (vScan s.board s.enp c) := by
  unfold play_validate
  rw [play_eq_body]
  exact (playBody_vcorr (recOf 8)
    { s with legal_move_check := true, depth_limit := MAX_DEPTH_PLY1, stack_depth := 0 }
    origin target c rfl rfl).2

/-- C2: whenever the enumerator generates a move capturing a king, the
search (outside validation mode) returns immediately with the fixed
king-capture score 78, doubled to 156 exactly beyond the
MAX_DEPTH_PLY1 boundary, and reports the king capture through the
return value, regardless of the other candidates. -/
theorem C2_king_capture (d : Nat) (s : ChessState) (oh th : Int) (c : Nat)
    (hmode : s.legal_move_check = false)
    (hking : ∃ m ∈ genMoves s.board s.enp c, m.target &&& PIECE_MASK = KING) :
    (play d s oh th c).score =
      (if MAX_DEPTH_PLY1 < s.stack_depth then MAX_CHECKMATE_SCORE else KING_CAPTURE_SCORE) ∧
    (play d s oh th c).king_captured = true := by
  rw [play_eq_body, playBody_corr (recOf d) (recPres_recOf d) s oh th c hmode]
  obtain ⟨bf', bt', heq⟩ := processMovesR_king (recOf d) s c (genMoves s.board s.enp c)
    hking MIN_SCORE (-1) (-1)
  rw [heq]
  exact ⟨rfl, rfl⟩

/-- Board for the C2 witness: a white queen beside the black king. -/
def kingBoard : List Nat := (create_board.set 0x44 0x0C).set 0x45 0x06

/-- State for the C2 witness. -/
def kingState : ChessState :=
  { board := kingBoard, depth_limit := 0, enp := 0, legal_move_check := false,
    stack_depth := 0 }

/-- Witness for C2 at a concrete king-capture position. -/
theorem C2_witness :
    (play 1 kingState (-1) (-1) WHITE).score = KING_CAPTURE_SCORE ∧
    (play 1 kingState (-1) (-1) WHITE).king_captured = true := by
  have h := C2_king_capture 1 kingState (-1) (-1) WHITE rfl (by decide)
  have hif : (if MAX_DEPTH_PLY1 < kingState.stack_depth then MAX_CHECKMATE_SCORE
      else KING_CAPTURE_SCORE) = KING_CAPTURE_SCORE := by decide
  exact ⟨h.1.trans hif, h.2⟩

/-- C3: the board mutations of the search are reversible and balanced.
First part: every call to play returns with the board and the en
passant square exactly as they were at entry.  Second part: for every
applied move (target cell overwritten with the moved piece, origin
cell emptied, depth increased by two for the recursive call), writing
the two saved cell values back after the recursive call returns yields
a board bit-identical to the one before the move was applied. -/
theorem C3_reversibility :
    (∀ (d : Nat) (s : ChessState) (oh th : Int) (c : Nat),
        (play d s oh th c).state.board = s.board ∧ (play d s oh th c).state.enp = s.enp) ∧
    (∀ (d : Nat) (s : ChessState) (oh th : Int) (c : Nat) (si diN x : Nat),
        ((play d
              { s with
                board := (s.board.set diN x).set si EMPTY
                stack_depth := s.stack_depth + 2 }
              oh th c).state.board.set si
            (s.board.getD si 0)).set diN (s.board.getD diN 0) = s.board) := by
  constructor
  · intro d s oh th c
    rw [play_state]
    exact ⟨rfl, rfl⟩
  · intro d s oh th c si diN x
    rw [play_state]
    dsimp only
    rw [List.getD_eq_getElem?_getD, List.getD_eq_getElem?_getD]
    exact set_set_restore s.board si diN x EMPTY

/-- C4: at a search node (outside validation mode) at which no
enumerated move captures a king, the returned score is the negamax fold
over the enumerated moves: each move scores the material value of its
capture minus the recursive score of the child position when below the
depth limit (just the material value at the limit), the node returns
the maximum of those scores starting from MIN_SCORE (hence MIN_SCORE
when no move is generated), and the recorded best move is the first
strict maximizer in enumeration order, with no randomization. -/
theorem C4_negamax (d : Nat) (s : ChessState) (oh th : Int) (c : Nat)
    (hmode : s.legal_move_check = false)
    (hnoking : ∀ m ∈ genMoves s.board s.enp c, m.target &&& PIECE_MASK ≠ KING) :
    (play (d + 1) s oh th c).score = (negamaxFold d s c (genMoves s.board s.enp c)).1 ∧
    (negamaxFold d s c (genMoves s.board s.enp c)).1 =
      ((genMoves s.board s.enp c).map (moveScore d s c)).foldl max MIN_SCORE ∧
    ((play (d + 1) s oh th c).best_from, (play (d + 1) s oh th c).best_to) =
      ((negamaxFold d s c (genMoves s.board s.enp c)).2.1,
        (negamaxFold d s c (genMoves s.board s.enp c)).2.2) ∧
    (genMoves s.board s.enp c = [] → (play (d + 1) s oh th c).score = MIN_SCORE) := by
  have hcorr := playBody_corr (recOf (d + 1)) (recPres_recOf (d + 1)) s oh th c hmode
  have hnk := processMovesR_noKing (recOf (d + 1)) s c (genMoves s.board s.enp c) hnoking
    MIN_SCORE (-1) (-1)
  rw [play_eq_body, hcorr, hnk]
  dsimp only
  refine ⟨rfl, ?_, rfl, ?_⟩
  · rw [negamaxFold_eq, negamaxFoldR_fst]
    rfl
  · intro hempty
    rw [hempty]
    rfl

/-- Board for the C4 witness: a white rook that can capture a black
pawn along its rightward ray; no kings. -/
def rookBoard : List Nat := (create_board.set 0x00 0x0A).set 0x02 0x01

/-- State for the C4 witness (node at the depth limit). -/
def rookState : ChessState :=
  { board := rookBoard, depth_limit := 0, enp := 0, legal_move_check := false,
    stack_depth := 0 }

/-- Witness for C4 at a concrete king-free position. -/
theorem C4_witness :
    (play 1 rookState (-1) (-1) WHITE).score =
      (negamaxFold 0 rookState WHITE (genMoves rookState.board rookState.enp WHITE)).1 ∧
    (negamaxFold 0 rookState WHITE (genMoves rookState.board rookState.enp WHITE)).1 =
      ((genMoves rookState.board rookState.enp WHITE).map
          (moveScore 0 rookState WHITE)).foldl max MIN_SCORE ∧
    ((play 1 rookState (-1) (-1) WHITE).best_from,
        (play 1 rookState (-1) (-1) WHITE).best_to) =
      ((negamaxFold 0 rookState WHITE (genMoves rookState.board rookState.enp WHITE)).2.1,
        (negamaxFold 0 rookState WHITE (genMoves rookState.board rookState.enp WHITE)).2.2) ∧
    (genMoves rookState.board rookState.enp WHITE = [] →
      (play 1 rookState (-1) (-1) WHITE).score = MIN_SCORE) :=
  C4_negamax 0 rookState (-1) (-1) WHITE rfl (by decide)

/-- Board for C5: a black pawn at 0x23 with a white pawn straight ahead
of it at 0x13 (one step along the black pawn displacement -16). -/
def pawnBoardCapture : List Nat := (create_board.set 0x23 0x11).set 0x13 0x19

/-- Board for C5: the same black pawn with nothing ahead of it. -/
def pawnBoardFree : List Nat := create_board.set 0x23 0x11

/-- C5 (code bug): the enumerator generates the straight pawn move
0x23 to 0x13 although the target square holds an enemy piece (a
straight-ahead capture, which the claim and the comments at lines
343-346 exclude), the search plays it (scoring the capture), and the
same pawn with an empty square ahead generates no move at all: the
guard movement_count < 3 at line 344 is never true (the count is
always 4 for pawns), so straight advances onto empty squares are
rejected by the en passant test instead of being accepted. -/
theorem C5_pawn_straight_bug :
    genMoves pawnBoardCapture 0 BLACK = [⟨0x23, 0x13, 0x19⟩] ∧
    pawnBoardCapture.getD 0x13 0 ≠ EMPTY ∧
    genMoves pawnBoardFree 0 BLACK = [] ∧
    pawnBoardFree.getD 0x13 0 = EMPTY ∧
    (play 0 { board := pawnBoardCapture, depth_limit := 0, enp := 0,
              legal_move_check := false, stack_depth := 0 } (-1) (-1) BLACK).score = 1 := by
  refine ⟨by decide, by decide, by decide, by decide, by decide⟩

/-- C6 (code bug): on the standard initial position the white pawn
double advance D2 to D4 (0x63 to 0x43, the example of the program
header) is rejected by play_validate with the illegal-move sentinel,
although the pawn is present and the path is clear: the white pawn
displacements 15, 17, 16, 32 move toward increasing indices, which on
this board orientation is the white back rank.  The second half of
the claim holds: make_move on that pair does set the en passant target
to 0x43. -/
theorem C6_d2d4_bug :
    play_validate initial_state 0x63 0x43 WHITE = ILLEGAL_MOVE_SCORE ∧
    (make_move initial_state 0x63 0x43).enp = 0x43 ∧
    initial_board.getD 0x63 0 = 0x19 ∧
    initial_board.getD 0x53 0 = EMPTY ∧
    initial_board.getD 0x43 0 = EMPTY := by
  refine ⟨by decide, by decide, by decide, by decide, by decide⟩

/-- C7: rook (pt 2), bishop (pt 3) and queen (pt 4) rays of the
enumerator follow the specification slide semantics along each of their
directions (one candidate per empty square traversed, the move onto the
first enemy square generated and the ray stopped, nothing generated on
a friendly square and the ray stopped, the ray stopped off board),
while pawn (pt 1), knight (pt 5) and king (pt 6) rays generate at most
one candidate per direction. -/
theorem C7_rays :
    (∀ (b : List Nat) (enp : Int) (c si pt md fuel : Nat) (di : Int),
        pt = 2 ∨ pt = 3 ∨ pt = 4 → md < (moveParams pt c).1 →
        genRay b enp c si (moveParams pt c).1 (moveParams pt c).2.1 (moveParams pt c).2.2
            md fuel di =
          specSlide b c si (displacement.getD ((moveParams pt c).2.1 + md) 0) fuel di) ∧
    (∀ (b : List Nat) (enp : Int) (c si pt md fuel : Nat) (di : Int),
        pt = 1 ∨ pt = 5 ∨ pt = 6 →
        (genRay b enp c si (moveParams pt c).1 (moveParams pt c).2.1 (moveParams pt c).2.2
            md fuel di).length ≤ 1) := by
  constructor
  · intro b enp c si pt md fuel di hpt hmd
    rcases hpt with h | h | h <;> subst h
    · have hmd4 : md < 4 := hmd
      exact genRay_slide b enp c si 4 8 md (by decide) (by omega) fuel di
    · have hmd4 : md < 4 := hmd
      exact genRay_slide b enp c si 4 12 md (by decide) (by omega) fuel di
    · have hmd8 : md < 8 := hmd
      exact genRay_slide b enp c si 8 8 md (by decide) (by omega) fuel di
  · intro b enp c si pt md fuel di hpt
    rcases hpt with h | h | h <;> subst h
    · exact genRay_step_len b enp c si 4 (if c = BLACK then 16 else 20) md fuel di
    · exact genRay_step_len b enp c si 8 0 md fuel di
    · exact genRay_step_len b enp c si 8 8 md fuel di

/-- Board for the C7 witness: a white rook with an enemy pawn on its
rightward ray. -/
def sliderBoard : List Nat := (create_board.set 0x40 0x0A).set 0x44 0x01

/-- Witness for C7: the rightward rook ray matches the slide semantics
on a concrete board, and a knight ray generates at most one move. -/
theorem C7_witness :
    genRay sliderBoard 0 WHITE 0x40 (moveParams 2 WHITE).1 (moveParams 2 WHITE).2.1
        (moveParams 2 WHITE).2.2 3 128 0x40 =
      specSlide sliderBoard WHITE 0x40
        (displacement.getD ((moveParams 2 WHITE).2.1 + 3) 0) 128 0x40 ∧
    (genRay sliderBoard 0 WHITE 0x40 (moveParams 5 WHITE).1 (moveParams 5 WHITE).2.1
        (moveParams 5 WHITE).2.2 0 128 0x40).length ≤ 1 :=
  ⟨C7_rays.1 sliderBoard 0 WHITE 0x40 2 3 128 0x40 (Or.inl rfl) (by decide),
   C7_rays.2 sliderBoard 0 WHITE 0x40 5 0 128 0x40 (Or.inr (Or.inl rfl))⟩

/-- Board for C8: a white pawn on D2 (0x63) and a black pawn on 0x54,
diagonally adjacent (along the black pawn displacement -17) to the
square D4 (0x43) the white pawn double-advances to. -/
def epBoard : List Nat := (create_board.set 0x63 0x19).set 0x54 0x11

/-- State for C8 before the double advance. -/
def epState : ChessState :=
  { board := epBoard, depth_limit := 0, enp := 0, legal_move_check := false,
    stack_depth := 0 }

/-- C8 (code bug): after the white double advance 0x63 to 0x43 the en
passant target is the landing square S = 0x43 itself, which is occupied
by the advanced pawn, not a previously empty square; the black diagonal
move 0x54 to 0x43 is legal, but as an ordinary capture: it stays legal
when the en passant window is closed (enp cleared), nothing is ever
removed from the square one rank behind S (0x53 is empty before and
after), and the removal branch of make_move does not fire because the
captured cell is not empty. -/
theorem C8_en_passant_bug :
    (make_move epState 0x63 0x43).enp = 0x43 ∧
    (make_move epState 0x63 0x43).board.getD 0x43 0 ≠ EMPTY ∧
    play_validate (make_move epState 0x63 0x43) 0x54 0x43 BLACK = 0 ∧
    play_validate { make_move epState 0x63 0x43 with enp := 0 } 0x54 0x43 BLACK = 0 ∧
    (make_move epState 0x63 0x43).board.getD 0x53 0 = EMPTY ∧
    (make_move (make_move epState 0x63 0x43) 0x54 0x43).board.getD 0x53 0 = EMPTY ∧
    (make_move (make_move epState 0x63 0x43) 0x54 0x43).board.getD 0x43 0 = 0x01 := by
  refine ⟨by decide, by decide, by decide, by decide, by decide, by decide, by decide⟩

/-- C9: applying a two-square horizontal king move with make_move
relocates the rook on the side the king moved toward onto the square
the king passed through, empties the former rook square, and updates
the king origin and destination squares through the normal
move-application path (moved piece with the moved bit cleared on the
destination, origin emptied). -/
theorem C9_castling (s : ChessState) (fromSq toSq : Nat)
    (hlen : s.board.length = 128)
    (hking : s.board.getD fromSq 0 &&& PIECE_MASK = KING) :
    (toSq = fromSq + 2 → fromSq + 3 < 128 →
      ((make_move s fromSq toSq).board.getD (toSq - 1) 0 = s.board.getD (toSq + 1) 0 ∧
        (make_move s fromSq toSq).board.getD (toSq + 1) 0 = EMPTY ∧
        (make_move s fromSq toSq).board.getD toSq 0 =
          s.board.getD fromSq 0 &&& PIECE_FULL_MASK ∧
        (make_move s fromSq toSq).board.getD fromSq 0 = EMPTY)) ∧
    (fromSq = toSq + 2 → 2 ≤ toSq → fromSq < 128 →
      ((make_move s fromSq toSq).board.getD (toSq + 1) 0 = s.board.getD (toSq - 2) 0 ∧
        (make_move s fromSq toSq).board.getD (toSq - 2) 0 = EMPTY ∧
        (make_move s fromSq toSq).board.getD toSq 0 =
          s.board.getD fromSq 0 &&& PIECE_FULL_MASK ∧
        (make_move s fromSq toSq).board.getD fromSq 0 = EMPTY)) := by
  have hne : ¬(s.board.getD fromSq 0 &&& PIECE_MASK = PAWN) := by
    rw [hking]; decide
  constructor
  · intro ht hb
    subst ht
    unfold make_move
    dsimp only
    rw [if_neg hne, if_pos hking]
    have hdiff : ((fromSq + 2 : Nat) : Int) - (fromSq : Int) = 2 := by push_cast; ring
    rw [if_pos hdiff]
    have e1 : fromSq + 2 - 1 = fromSq + 1 := by omega
    have e2 : fromSq + 2 + 1 = fromSq + 3 := by omega
    rw [e1, e2]
    refine ⟨?_, ?_, ?_, ?_⟩
    · rw [getD_set_ne _ _ (show fromSq + 3 ≠ fromSq + 1 by omega),
        getD_set_eq _ _ (by simp [List.length_set, hlen]; omega),
        getD_set_ne _ _ (show fromSq ≠ fromSq + 3 by omega),
        getD_set_ne _ _ (show fromSq + 2 ≠ fromSq + 3 by omega)]
    · rw [getD_set_eq _ _ (by simp [List.length_set, hlen]; omega)]
    · rw [getD_set_ne _ _ (show fromSq + 3 ≠ fromSq + 2 by omega),
        getD_set_ne _ _ (show fromSq + 1 ≠ fromSq + 2 by omega),
        getD_set_ne _ _ (show fromSq ≠ fromSq + 2 by omega),
        getD_set_eq _ _ (by simp [List.length_set, hlen]; omega)]
    · rw [getD_set_ne _ _ (show fromSq + 3 ≠ fromSq by omega),
        getD_set_ne _ _ (show fromSq + 1 ≠ fromSq by omega),
        getD_set_eq _ _ (by simp [List.length_set, hlen]; omega)]
  · intro hf h2 hrange
    subst hf
    unfold make_move
    dsimp only
    rw [if_neg hne, if_pos hking]
    have hdn : ¬(((toSq : Nat) : Int) - ((toSq + 2 : Nat) : Int) = 2) := by
      push_cast; omega
    have hdm : ((toSq : Nat) : Int) - ((toSq + 2 : Nat) : Int) = -2 := by
      push_cast; ring
    rw [if_neg hdn, if_pos hdm]
    refine ⟨?_, ?_, ?_, ?_⟩
    · rw [getD_set_ne _ _ (show toSq - 2 ≠ toSq + 1 by omega),
        getD_set_eq _ _ (by simp [List.length_set, hlen]; omega),
        getD_set_ne _ _ (show toSq + 2 ≠ toSq - 2 by omega),
        getD_set_ne _ _ (show toSq ≠ toSq - 2 by omega)]
    · rw [getD_set_eq _ _ (by simp [List.length_set, hlen]; omega)]
    · rw [getD_set_ne _ _ (show toSq - 2 ≠ toSq by omega),
        getD_set_ne _ _ (show toSq + 1 ≠ toSq by omega),
        getD_set_ne _ _ (show toSq + 2 ≠ toSq by omega),
        getD_set_eq _ _ (by simp [List.length_set, hlen]; omega)]
    · rw [getD_set_ne _ _ (show toSq - 2 ≠ toSq + 2 by omega),
        getD_set_ne _ _ (show toSq + 1 ≠ toSq + 2 by omega),
        getD_set_eq _ _ (by simp [List.length_set, hlen]; omega)]

/-- Board for the C9 kingside witness: an unmoved white king on E1 and
an unmoved white rook on H1. -/
def castleBoardK : List Nat := (create_board.set 0x74 0x1E).set 0x77 0x1A

/-- State for the C9 kingside witness. -/
def castleStateK : ChessState :=
  { board := castleBoardK, depth_limit := 0, enp := 0, legal_move_check := false,
    stack_depth := 0 }

/-- Board for the C9 queenside witness: an unmoved white king on E1 and
an unmoved white rook on A1. -/
def castleBoardQ : List Nat := (create_board.set 0x74 0x1E).set 0x70 0x1A

/-- State for the C9 queenside witness. -/
def castleStateQ : ChessState :=
  { board := castleBoardQ, depth_limit := 0, enp := 0, legal_move_check := false,
    stack_depth := 0 }

/-- Witness for C9 at concrete kingside and queenside castles. -/
theorem C9_witness :
    ((make_move castleStateK 0x74 0x76).board.getD (0x76 - 1) 0 =
        castleStateK.board.getD (0x76 + 1) 0 ∧
      (make_move castleStateK 0x74 0x76).board.getD (0x76 + 1) 0 = EMPTY ∧
      (make_move castleStateK 0x74 0x76).board.getD 0x76 0 =
        castleStateK.board.getD 0x74 0 &&& PIECE_FULL_MASK ∧
      (make_move castleStateK 0x74 0x76).board.getD 0x74 0 = EMPTY) ∧
    ((make_move castleStateQ 0x74 0x72).board.getD (0x72 + 1) 0 =
        castleStateQ.board.getD (0x72 - 2) 0 ∧
      (make_move castleStateQ 0x74 0x72).board.getD (0x72 - 2) 0 = EMPTY ∧
      (make_move castleStateQ 0x74 0x72).board.getD 0x72 0 =
        castleStateQ.board.getD 0x74 0 &&& PIECE_FULL_MASK ∧
      (make_move castleStateQ 0x74 0x72).board.getD 0x74 0 = EMPTY) :=
  ⟨(C9_castling castleStateK 0x74 0x76 (by decide) (by decide)).1 rfl (by decide),
   (C9_castling castleStateQ 0x74 0x72 (by decide) (by decide)).2 rfl (by decide) (by decide)⟩

/-- C10: in validation mode at depth zero, play leaves the whole state
(the shared board included) untouched and its score equals the outcome
of the validation walk vOutcome over the scan sequence vScan, both of
which are defined without any board write, move application or
recursion: play_validate treats the board as read-only. -/
theorem C10_validation_readonly (d : Nat) (s : ChessState) (oh th : Int) (c : Nat)
    (hmode : s.legal_move_check = true) (hd0 : s.stack_depth = 0) :
    (play d s oh th c).state = s ∧
    (play d s oh th c).state.board = s.board ∧
    (play d s oh th c).score = vOutcome oh th (vScan s.board s.enp c) := by
  rw [play_eq_body]
  have h := playBody_vcorr (recOf d) s oh th c hmode hd0
  exact ⟨h.1, by rw [h.1], h.2⟩

/-- The initial state configured the way play_validate configures it. -/
def validatedInitial : ChessState :=
  { initial_state with legal_move_check := true, depth_limit := MAX_DEPTH_PLY1 }

/-- Witness for C10 at the standard initial position configured the way
play_validate configures it. -/
theorem C10_witness :
    (play 8 validatedInitial 0x63 0x43 WHITE).state = validatedInitial ∧
    (play 8 validatedInitial 0x63 0x43 WHITE).state.board = validatedInitial.board ∧
    (play 8 validatedInitial 0x63 0x43 WHITE).score =
      vOutcome 0x63 0x43 (vScan validatedInitial.board validatedInitial.enp WHITE) :=
  C10_validation_readonly 8 validatedInitial 0x63 0x43 WHITE rfl rfl

end Atomchess
